import Mathlib

/-!  Verification of the Newsgrabber pipeline (src/main.py).

Python strings are modelled as lists of characters (`Str`).  The external
effects of the script — HTTP fetches, BeautifulSoup parsing, the comment
listing, and the OpenAI completion service — are modelled as oracles: an
`Env` record for the network/parsing effects and an `Oracle` for the
completion service, which maps the global index of a completion call and the
prompt sent to the call's result.  Console output and `time.sleep` pacing
have no observable effect on the data flow and are not modelled.  -/

/-- Python strings are modelled as lists of characters. -/
abbrev Str : Type := List Char

/-- Recursion for Python `str.split()` with no separator: split on runs of
whitespace, dropping empty pieces.  `acc` holds the characters of the word
currently being read, in reverse order. -/
def pySplitAux : List Char → List Char → List Str
  | [], acc => if acc = [] then [] else [acc.reverse]
  | c :: cs, acc =>
    if c.isWhitespace then
      if acc = [] then pySplitAux cs []
      else acc.reverse :: pySplitAux cs []
    else pySplitAux cs (c :: acc)

/-- Model of Python `text.split()` (src/main.py line 114). -/
def pySplit (s : Str) : List Str := pySplitAux s []

/-- Model of Python `" ".join(xs)`. -/
def joinSpace : List Str → Str
  | [] => []
  | [w] => w
  | w :: x :: ws => w ++ ' ' :: joinSpace (x :: ws)

/-- The loop of `chunk_text` (src/main.py lines 115-126): `current_chunk` is
the list of words of the chunk being built and `current_length` mirrors the
running `current_length` variable (a sum of word lengths, separators not
counted).  The trailing `chunks.append(" ".join(current_chunk))` of line 127
is the base case. -/
def chunkTextLoop (max_length : Nat) : List Str → List Str → Nat → List (List Str)
  | [], current_chunk, _ => [current_chunk]
  | word :: words, current_chunk, current_length =>
    if current_length + word.length ≤ max_length then
      chunkTextLoop max_length words (current_chunk ++ [word]) (current_length + word.length)
    else
      current_chunk :: chunkTextLoop max_length words [word] word.length

/-- Model of `chunk_text` (src/main.py lines 113-128). -/
def chunk_text (text : Str) (max_length : Nat) : List Str :=
  (chunkTextLoop max_length (pySplit text) [] 0).map joinSpace

/-- Sum of the lengths of the words of a chunk — the quantity tracked by
`current_length` in `chunk_text`. -/
def wordsLen (chunk : List Str) : Nat := (chunk.map List.length).sum

/-- The maximal prefix of a word list whose running word-length sum, started
at `acc`, stays within `max_length`, together with the remaining words.  Used
only to reason about `chunkTextLoop`. -/
def takeWithin (max_length acc : Nat) : List Str → List Str × List Str
  | [] => ([], [])
  | w :: ws =>
    if acc + w.length ≤ max_length then
      let p := takeWithin max_length (acc + w.length) ws
      (w :: p.1, p.2)
    else ([], w :: ws)

/-- The chunks produced after the first chunk is closed: empty when no word
remains, otherwise the loop restarted on the overflowing word.  Used only to
reason about `chunkTextLoop`. -/
def tailChunks (max_length : Nat) : List Str → List (List Str)
  | [] => []
  | w :: ws => chunkTextLoop max_length ws [w] w.length

/-- Result of one `openai.ChatCompletion.create` call (src/main.py line 41):
a completion content, a `RateLimitError`, or any other exception. -/
inductive CallResult where
  | success (content : Str)
  | rateLimit
  | otherError
deriving DecidableEq

/-- The completion service, modelled as a deterministic oracle from the
global call index and the prompt sent to the result of that call. -/
abbrev Oracle : Type := Nat → Str → CallResult

/-- Outcome of one `summarize` invocation: a normal return — `none` models
the implicit `return None` after all retries were rate-limited — or a
propagated (uncaught) exception. -/
inductive SummarizeOutcome where
  | returned (result : Option Str)
  | raised
deriving DecidableEq

/-- The fixed instruction text of the prompt built in `summarize`
(src/main.py lines 23-31), the concatenation of the adjacent f-string
pieces. -/
def promptInstructions : Str :=
  ("Summarize the following text. Make the summary interesting as it will be read out loud in a podcast format. The host and audience are very interested in programming and AI. Make it roughly two paragraphs long add transition words before and after to make the summary flow well. as it will be combined with other summaries. start by crafting an intro sentence that hooks the audience. Then, summarize the text in a concise manner.").data

/-- The prompt sent by `summarize` (src/main.py lines 21-34): a truthy
`title` argument is wrapped into a steering hint, while `None` or the empty
string contributes nothing (`title if title else ''`). -/
def buildPrompt (text : Str) (title : Option Str) : Str :=
  let t : Str :=
    match title with
    | some s => if s = [] then [] else "Use the following title: ".data ++ s ++ "\n\n".data
    | none => []
  promptInstructions ++ t ++ "\n\nText: ".data ++ text ++ "\n\nSummary:".data

/-- The retry loop of `summarize` (src/main.py lines 39-54): `k` is the
global index of the next completion call, the fuel starts at
`max_retries = 5`.  A success returns the content, a `RateLimitError` waits
and retries, any other exception propagates; falling off the loop returns
`None`.  The returned list records the prompt of every call made. -/
def summarizeLoop (oracle : Oracle) (prompt : Str) : Nat → Nat → SummarizeOutcome × List Str
  | _, 0 => (.returned none, [])
  | k, fuel + 1 =>
    match oracle k prompt with
    | .success c => (.returned (some c), [prompt])
    | .otherError => (.raised, [prompt])
    | .rateLimit =>
      let r := summarizeLoop oracle prompt (k + 1) fuel
      (r.1, prompt :: r.2)

/-- Model of `summarize` (src/main.py lines 20-54). -/
def summarize (oracle : Oracle) (k : Nat) (text : Str) (title : Option Str) :
    SummarizeOutcome × List Str :=
  summarizeLoop oracle (buildPrompt text title) k 5

/-- Oracles for the network and parsing effects of the extraction pipeline:
`fetch url` models `requests.get(url)` (`none` models a
`RequestException`), `prettify` models `BeautifulSoup(...).prettify()`,
`extractOf` models `" ".join(BeautifulSoup(...).stripped_strings)`, and
`comments objectID` is the list of `comment_text` fields of the hits
returned by `get_comments_from_post`. -/
structure Env where
  fetch : Str → Option Str
  prettify : Str → Str
  extractOf : Str → Str
  comments : Str → List Str

/-- A Hacker News post as consumed by the script: `title`, `url` and
`story_text` are the `post.get(...)` fields (absent modelled as `none`),
`tags` is `post["_tags"]` and `objectID` is `post["objectID"]`. -/
structure Post where
  title : Option Str
  url : Option Str
  story_text : Option Str
  tags : List Str
  objectID : Str

def strERROR : Str := "ERROR".data

def strHtml : Str := "html".data

def strText : Str := "text".data

def strAskTag : Str := "ask_hn".data

def briefSuffix : Str := "\nPlease provide a brief summary.".data

def conciseSuffix : Str := "\nPlease provide a concise final summary.".data

/-- Model of `extract_text` (src/main.py lines 90-94): a falsy argument
(`None` or the empty string) yields `None`, otherwise the visible text of
the parsed document. -/
def extract_text (env : Env) (html_content : Option Str) : Option Str :=
  match html_content with
  | some h => if h = [] then none else some (env.extractOf h)
  | none => none

/-- Model of `get_text_from_hn_post` (src/main.py lines 97-110): a truthy URL
is fetched — failure gives `("ERROR", None)`, success the prettified page —
otherwise the inline `story_text` is used verbatim. -/
def get_text_from_hn_post (env : Env) (post : Post) : Str × Option Str :=
  match post.url with
  | some url =>
    if url = [] then (strText, post.story_text)
    else
      match env.fetch url with
      | some page => (strHtml, some (env.prettify page))
      | none => (strERROR, none)
  | none => (strText, post.story_text)

/-- Runtime errors that escape `map_title_summary`: a `TypeError` from using
a `None` content (`content += ...`, `len(content)`, or `" ".join` applied to
a list containing a `None` chunk summary), or an uncaught exception from a
completion call. -/
inductive PyError where
  | noneTypeError
  | apiException
deriving DecidableEq

/-- Outcome of one iteration of the post loop of `map_title_summary`:
`skip` models `continue`, `record` a dictionary assignment, `crash` an
uncaught exception. -/
inductive StepResult where
  | skip
  | record (title : Option Str) (value : Option Str)
  | crash (e : PyError)
deriving DecidableEq

/-- Lines 136-142 of src/main.py: the `continue` on post type `"ERROR"` is
modelled as `none`; for `"html"` the fetched page runs through
`extract_text`. -/
def resolvedContent (env : Env) (post : Post) : Option (Option Str) :=
  let r := get_text_from_hn_post env post
  if r.1 = strERROR then none
  else if r.1 = strHtml then some (extract_text env r.2)
  else some r.2

/-- Lines 144-149 of src/main.py: the ask-post comment section.  A `None`
content raises a `TypeError`, either at `content += ...` (ask posts) or at
the later `len(content)` of line 151 (other posts); both surface as
`noneTypeError`. -/
def withComments (env : Env) (post : Post) (content : Option Str) : Except PyError Str :=
  if strAskTag ∈ post.tags then
    match content with
    | some c => .ok (c ++ " Comments: ".data ++ joinSpace (env.comments post.objectID))
    | none => .error .noneTypeError
  else
    match content with
    | some c => .ok c
    | none => .error .noneTypeError

/-- The chunk loop of src/main.py lines 153-158: each chunk is summarized
with the brief-summary instruction and no title hint; an exception raised by
a chunk call propagates out of `map_title_summary`.  The prompts of all
calls made are returned alongside. -/
def chunkSummaries (oracle : Oracle) (k : Nat) :
    List Str → Except PyError (List (Option Str)) × List Str
  | [] => (.ok [], [])
  | chunk :: rest =>
    match summarize oracle k (chunk ++ briefSuffix) none with
    | (.raised, tr) => (.error .apiException, tr)
    | (.returned v, tr) =>
      match chunkSummaries oracle (k + tr.length) rest with
      | (.ok vs, tr2) => (.ok (v :: vs), tr ++ tr2)
      | (.error e, tr2) => (.error e, tr ++ tr2)

/-- Python `" ".join(chunk_summaries)` raises a `TypeError` when some chunk
summary is `None`; `seqOptions` extracts the strings when all are present. -/
def seqOptions : List (Option Str) → Option (List Str)
  | [] => some []
  | some s :: rest => (seqOptions rest).map (fun l => s :: l)
  | none :: _ => none

/-- The direct branch of src/main.py lines 168-169: one `summarize` call, not
wrapped in `try`, so a propagated exception crashes the whole loop. -/
def directPath (oracle : Oracle) (k : Nat) (content : Str) (title : Option Str) :
    StepResult × List Str :=
  match summarize oracle k content title with
  | (.raised, tr) => (.crash .apiException, tr)
  | (.returned v, tr) => (.record title v, tr)

/-- The chunked branch of src/main.py lines 152-167: summarize every chunk,
join the chunk summaries with single spaces, and make one final call with the
concise-summary instruction and the title hint.  Only an exception of that
final call is caught (lines 161-167, `except ...: continue`). -/
def chunkedPath (oracle : Oracle) (k : Nat) (content : Str) (title : Option Str) :
    StepResult × List Str :=
  match chunkSummaries oracle k (chunk_text content 12000) with
  | (.error e, tr) => (.crash e, tr)
  | (.ok sums, tr) =>
    match seqOptions sums with
    | none => (.crash .noneTypeError, tr)
    | some vs =>
      match summarize oracle (k + tr.length) (joinSpace vs ++ conciseSuffix) title with
      | (.raised, tr2) => (.skip, tr ++ tr2)
      | (.returned v, tr2) => (.record title v, tr ++ tr2)

/-- The length test of src/main.py line 151. -/
def summarizePhase (oracle : Oracle) (k : Nat) (content : Str) (title : Option Str) :
    StepResult × List Str :=
  if 12000 < content.length then chunkedPath oracle k content title
  else directPath oracle k content title

/-- One iteration of the post loop of `map_title_summary` (src/main.py lines
134-173); `k` is the number of completion calls made so far in the run. -/
def processPost (env : Env) (oracle : Oracle) (k : Nat) (post : Post) :
    StepResult × List Str :=
  match resolvedContent env post with
  | none => (.skip, [])
  | some content =>
    match withComments env post content with
    | .error e => (.crash e, [])
    | .ok c => summarizePhase oracle k c post.title

/-- Python dict assignment `m[key] = v` on an insertion-ordered dictionary:
overwrite in place when the key is present, otherwise append. -/
def dictInsert (m : List (Option Str × Option Str)) (key : Option Str) (v : Option Str) :
    List (Option Str × Option Str) :=
  if m.any (fun p => decide (p.1 = key)) then
    m.map (fun p => if p.1 = key then (key, v) else p)
  else m ++ [(key, v)]

/-- The post loop of `map_title_summary`, threading the dictionary (as an
insertion-ordered association list) and the global trace of completion-call
prompts. -/
def mtsGo (env : Env) (oracle : Oracle) :
    List Post → List (Option Str × Option Str) → List Str →
    Except PyError (List (Option Str × Option Str) × List Str)
  | [], m, tr => .ok (m, tr)
  | post :: rest, m, tr =>
    match processPost env oracle tr.length post with
    | (.skip, tr') => mtsGo env oracle rest m (tr ++ tr')
    | (.record t v, tr') => mtsGo env oracle rest (dictInsert m t v) (tr ++ tr')
    | (.crash e, _) => .error e

/-- Model of `map_title_summary` (src/main.py lines 131-174): the resulting
title→summary association list in insertion order together with the prompts
of all completion calls made, or the uncaught exception that aborted it. -/
def map_title_summary (env : Env) (oracle : Oracle) (posts : List Post) :
    Except PyError (List (Option Str × Option Str) × List Str) :=
  mtsGo env oracle posts [] []

/-- The fixed preamble of the podcast script (src/main.py line 178). -/
def preamble : Str := "Here\x27s your daily summary.\n\n".data

/-- Python `f"{v}"` applied to a dictionary value that may be `None`. -/
def pyFormat : Option Str → Str
  | some s => s
  | none => "None".data

/-- Model of `curate` (src/main.py lines 177-184): fold of
`podcast_script += f"{title_summary_map[title]}\n\n"` over the dictionary in
insertion order, starting from the preamble. -/
def curate (m : List (Option Str × Option Str)) : Str :=
  m.foldl (fun script p => script ++ (pyFormat p.2 ++ "\n\n".data)) preamble

/-- The prompts of the per-chunk summarization calls of the chunked branch. -/
def chunkPrompts (chunks : List Str) : List Str :=
  chunks.map (fun ch => buildPrompt (ch ++ briefSuffix) none)

/-- The chunk summaries produced when every completion call succeeds, the
completion service answering the prompt `p` of global call `i` with
`f i p`; `k` is the index of the first call. -/
def chunkOutputs (f : Nat → Str → Str) (k : Nat) : List Str → List Str
  | [] => []
  | ch :: rest => f k (buildPrompt (ch ++ briefSuffix) none) :: chunkOutputs f (k + 1) rest

/-! ### Concrete instances used to exercise the pipeline -/

/-- An environment whose URL fetches all fail and that has no comments. -/
def env0 : Env := ⟨fun _ => none, id, id, fun _ => []⟩

/-- A story post with a short inline text and no URL. -/
def post0 : Post := ⟨some "T".data, none, some "hi".data, [], "1".data⟩

/-- A post with no URL and empty inline text. -/
def postEmptyText : Post := ⟨some "T".data, none, some [], [], "1".data⟩

/-- A post with no URL and no inline-text field at all. -/
def postNoText : Post := ⟨some "T".data, none, none, [], "1".data⟩

/-- A post carrying an external URL (whose fetch fails under `env0`). -/
def postUrl : Post := ⟨some "T".data, some "u".data, none, [], "1".data⟩

def wordA : Str := List.replicate 8332 'a'

def wordB : Str := List.replicate 8333 'b'

def wordC : Str := List.replicate 8333 'c'

/-- A 25000-character text of three large words, split into exactly 3 chunks
at threshold 12000. -/
def text25k : Str := joinSpace [wordA, wordB, wordC]

/-- A 25000-character text that is a single word, split into only 2 chunks
(one of them empty) at threshold 12000. -/
def oneWord25k : Str := List.replicate 25000 'a'

/-- A long post whose inline text is `text25k`, driving the chunked branch. -/
def postBig : Post := ⟨some "T".data, none, some text25k, [], "1".data⟩

/-! ### Lemmas about splitting and joining -/

theorem wordsLen_nil : wordsLen [] = 0 := rfl

theorem wordsLen_cons (w : Str) (c : List Str) :
    wordsLen (w :: c) = w.length + wordsLen c := by
  simp [wordsLen]

theorem wordsLen_append (a b : List Str) :
    wordsLen (a ++ b) = wordsLen a + wordsLen b := by
  simp [wordsLen]

theorem pySplitAux_good :
    ∀ (cs acc : List Char), (∀ c ∈ acc, c.isWhitespace = false) →
      ∀ w ∈ pySplitAux cs acc, w ≠ [] ∧ ∀ c ∈ w, c.isWhitespace = false := by
  intro cs
  induction cs with
  | nil =>
    intro acc hacc w hw
    by_cases h : acc = []
    · simp [pySplitAux, h] at hw
    · simp [pySplitAux, h] at hw
      subst hw
      refine ⟨by simpa using h, ?_⟩
      intro c hc
      exact hacc c (List.mem_reverse.mp hc)
  | cons c cs ih =>
    intro acc hacc w hw
    by_cases hws : c.isWhitespace
    · by_cases h : acc = []
      · simp [pySplitAux, hws, h] at hw
        exact ih [] (by simp) w hw
      · simp [pySplitAux, hws, h] at hw
        rcases hw with hw2 | hw2
        · subst hw2
          refine ⟨by simpa using h, ?_⟩
          intro x hx
          exact hacc x (List.mem_reverse.mp hx)
        · exact ih [] (by simp) w hw2
    · simp only [pySplitAux, hws, if_false, Bool.false_eq_true] at hw
      refine ih (c :: acc) ?_ w hw
      intro x hx
      rcases List.mem_cons.mp hx with rfl | hx
      · simpa using hws
      · exact hacc x hx

theorem pySplit_good (s : Str) :
    ∀ w ∈ pySplit s, w ≠ [] ∧ ∀ c ∈ w, c.isWhitespace = false :=
  pySplitAux_good s [] (by simp)

theorem pySplitAux_word (w : Str) :
    ∀ (cs acc : List Char), (∀ c ∈ w, c.isWhitespace = false) →
      pySplitAux (w ++ cs) acc = pySplitAux cs (w.reverse ++ acc) := by
  induction w with
  | nil => intro cs acc _; simp
  | cons c w ih =>
    intro cs acc hw
    have hc : c.isWhitespace = false := hw c (by simp)
    have hw' : ∀ x ∈ w, x.isWhitespace = false := fun x hx => hw x (by simp [hx])
    show pySplitAux (c :: (w ++ cs)) acc = _
    simp only [pySplitAux, hc, Bool.false_eq_true, if_false]
    rw [ih cs (c :: acc) hw']
    simp

theorem pySplit_word (w : Str) (hne : w ≠ []) (hw : ∀ c ∈ w, c.isWhitespace = false) :
    pySplit w = [w] := by
  have h1 := pySplitAux_word w [] [] hw
  simp only [List.append_nil] at h1
  have h2 : w.reverse ≠ [] := by simpa using hne
  simp [pySplit, h1, pySplitAux, h2]

theorem pySplit_joinSpace :
    ∀ (c : List Str), (∀ w ∈ c, w ≠ [] ∧ ∀ ch ∈ w, ch.isWhitespace = false) →
      pySplit (joinSpace c) = c := by
  intro c
  induction c with
  | nil => intro _; simp [joinSpace, pySplit, pySplitAux]
  | cons w c ih =>
    intro h
    rcases c with _ | ⟨x, c'⟩
    · exact pySplit_word w (h w (by simp)).1 (h w (by simp)).2
    · have hw := h w (by simp)
      have hrest : ∀ y ∈ x :: c', y ≠ [] ∧ ∀ ch ∈ y, ch.isWhitespace = false :=
        fun y hy => h y (by simp [hy])
      show pySplit (w ++ ' ' :: joinSpace (x :: c')) = w :: x :: c'
      rw [pySplit, pySplitAux_word w _ _ hw.2]
      have hsp : (' ' : Char).isWhitespace = true := by decide
      have hne : w.reverse ≠ [] := by simpa using hw.1
      simp only [List.append_nil, pySplitAux, hsp, if_true]
      rw [if_neg hne, List.reverse_reverse]
      have hrec := ih hrest
      rw [pySplit] at hrec
      rw [hrec]

/-! ### Lemmas about the chunking loop -/

theorem chunkTextLoop_join (max_length : Nat) :
    ∀ (ws cur : List Str) (len : Nat),
      (chunkTextLoop max_length ws cur len).flatten = cur ++ ws := by
  intro ws
  induction ws with
  | nil => intro cur len; simp [chunkTextLoop]
  | cons w ws ih =>
    intro cur len
    by_cases h : len + w.length ≤ max_length
    · simp only [chunkTextLoop, h, if_true]
      rw [ih]
      simp
    · simp only [chunkTextLoop, h, if_false, List.flatten_cons]
      rw [ih]
      simp

theorem chunkTextLoop_bound (max_length : Nat) :
    ∀ (ws cur : List Str) (len : Nat), len = wordsLen cur →
      (∀ w ∈ ws, w.length ≤ max_length) → len ≤ max_length →
      ∀ c ∈ chunkTextLoop max_length ws cur len, wordsLen c ≤ max_length := by
  intro ws
  induction ws with
  | nil =>
    intro cur len hlen _ hle c hc
    simp [chunkTextLoop] at hc
    subst hc
    omega
  | cons w ws ih =>
    intro cur len hlen hws hle c hc
    by_cases h : len + w.length ≤ max_length
    · simp only [chunkTextLoop, h, if_true] at hc
      refine ih (cur ++ [w]) (len + w.length) ?_ (fun x hx => hws x (by simp [hx])) h c hc
      rw [hlen, wordsLen_append, wordsLen_cons, wordsLen_nil]
      omega
    · simp only [chunkTextLoop, h, if_false, List.mem_cons] at hc
      rcases hc with rfl | hc
      · omega
      · refine ih [w] w.length ?_ (fun x hx => hws x (by simp [hx])) (hws w (by simp)) c hc
        simp [wordsLen]

theorem takeWithin_append (max_length : Nat) :
    ∀ (ws : List Str) (acc : Nat),
      (takeWithin max_length acc ws).1 ++ (takeWithin max_length acc ws).2 = ws := by
  intro ws
  induction ws with
  | nil => intro acc; simp [takeWithin]
  | cons w ws ih =>
    intro acc
    by_cases h : acc + w.length ≤ max_length
    · simp only [takeWithin, h, if_true]
      rw [List.cons_append, ih]
    · simp [takeWithin, h]

theorem takeWithin_maximal (max_length : Nat) :
    ∀ (ws t : List Str) (acc : Nat), (∃ r, t ++ r = ws) →
      acc + wordsLen t ≤ max_length →
      t.length ≤ (takeWithin max_length acc ws).1.length := by
  intro ws
  induction ws with
  | nil =>
    intro t acc hpre _
    rcases hpre with ⟨r, hr⟩
    have := List.append_eq_nil.mp hr
    simp [this.1]
  | cons w ws ih =>
    intro t acc hpre hsum
    rcases hpre with ⟨r, hr⟩
    rcases t with _ | ⟨a, t'⟩
    · simp
    · rw [List.cons_append] at hr
      injection hr with h1 h2
      subst h1
      rw [wordsLen_cons] at hsum
      have hfit : acc + a.length ≤ max_length := by omega
      simp only [takeWithin, hfit, if_true, List.length_cons, Nat.succ_le_succ_iff]
      exact ih t' (acc + a.length) ⟨r, h2⟩ (by omega)

theorem chunkTextLoop_eq (max_length : Nat) :
    ∀ (ws cur : List Str) (len : Nat),
      chunkTextLoop max_length ws cur len =
        (cur ++ (takeWithin max_length len ws).1) ::
          tailChunks max_length (takeWithin max_length len ws).2 := by
  intro ws
  induction ws with
  | nil => intro cur len; simp [chunkTextLoop, takeWithin, tailChunks]
  | cons w ws ih =>
    intro cur len
    by_cases h : len + w.length ≤ max_length
    · simp only [chunkTextLoop, h, if_true, takeWithin]
      rw [ih]
      simp
    · simp only [chunkTextLoop, h, if_false, takeWithin, tailChunks]
      simp

theorem chunkTextLoop_restart (max_length : Nat) (w : Str) (ws : List Str)
    (h : w.length ≤ max_length) :
    chunkTextLoop max_length (w :: ws) [] 0 = chunkTextLoop max_length ws [w] w.length := by
  have h0 : 0 + w.length ≤ max_length := by omega
  simp [chunkTextLoop, h0, h]

theorem dropPartition (max_length : Nat) :
    ∀ (Q : List (List Str)) (b : List Str) (k : Nat),
      Q.flatten = b → (∀ c ∈ Q, wordsLen c ≤ max_length) →
      ∃ R : List (List Str), R.flatten = b.drop k ∧ (∀ c ∈ R, wordsLen c ≤ max_length) ∧
        R.length ≤ Q.length := by
  intro Q
  induction Q with
  | nil =>
    intro b k hb _
    have hbnil : b = [] := by simpa using hb.symm
    subst hbnil
    exact ⟨[], by simp, by simp, by simp⟩
  | cons q Q ih =>
    intro b k hb hQ
    rcases ih Q.flatten (k - q.length) rfl (fun c hc => hQ c (by simp [hc])) with ⟨R, hR1, hR2, hR3⟩
    refine ⟨q.drop k :: R, ?_, ?_, by simpa using Nat.succ_le_succ hR3⟩
    · rw [List.flatten_cons, hR1, ← hb, List.flatten_cons, List.drop_append_eq_append_drop]
    · intro c hc
      rcases List.mem_cons.mp hc with rfl | hc
      · have : q = q.take k ++ q.drop k := (List.take_append_drop k q).symm
        have hq : wordsLen q ≤ max_length := hQ q (by simp)
        rw [this, wordsLen_append] at hq
        omega
      · exact hR2 c hc

theorem greedy_minimal_aux (max_length : Nat) :
    ∀ (n : Nat) (ws : List Str), ws.length ≤ n →
      (∀ w ∈ ws, w.length ≤ max_length) → ws ≠ [] →
      ∀ Q : List (List Str), Q.flatten = ws → (∀ c ∈ Q, wordsLen c ≤ max_length) →
      (chunkTextLoop max_length ws [] 0).length ≤ Q.length := by
  intro n
  induction n with
  | zero =>
    intro ws hn _ hne _ _ _
    exact absurd (List.length_eq_zero.mp (Nat.le_zero.mp hn)) hne
  | succ n ih =>
    intro ws hn hfit hne Q hQjoin hQbound
    rcases Q with _ | ⟨q, Q'⟩
    · exact absurd (by simpa using hQjoin.symm) hne
    rw [chunkTextLoop_eq]
    rcases hr : (takeWithin max_length 0 ws).2 with _ | ⟨w, r'⟩
    · simp only [tailChunks, List.length_cons, List.length_nil]
      omega
    · -- the remainder r = w :: r' restarts the loop
      have hsplit : (takeWithin max_length 0 ws).1 ++ (takeWithin max_length 0 ws).2 = ws :=
        takeWithin_append max_length ws 0
      have hwmem : w ∈ ws := by
        rw [← hsplit, hr]
        simp
      have hw : w.length ≤ max_length := hfit w hwmem
      have hrestart : tailChunks max_length ((takeWithin max_length 0 ws).2) =
          chunkTextLoop max_length (takeWithin max_length 0 ws).2 [] 0 := by
        rw [hr]
        show chunkTextLoop max_length r' [w] w.length = _
        rw [chunkTextLoop_restart max_length w r' hw]
      -- q is a prefix of ws that fits, so it is no longer than the greedy prefix
      have hqpre : ∃ t, q ++ t = ws := ⟨Q'.flatten, by simpa using hQjoin⟩
      have hqbound : 0 + wordsLen q ≤ max_length := by
        have := hQbound q (by simp)
        omega
      have hqlen : q.length ≤ (takeWithin max_length 0 ws).1.length :=
        takeWithin_maximal max_length ws q 0 hqpre hqbound
      -- the remainder is a drop of the flatten of Q'
      have hdropq : q.drop (takeWithin max_length 0 ws).1.length = [] :=
        List.drop_eq_nil_of_le hqlen
      have hrdrop : (takeWithin max_length 0 ws).2 =
          Q'.flatten.drop ((takeWithin max_length 0 ws).1.length - q.length) := by
        have h1 : (takeWithin max_length 0 ws).2 =
            ws.drop (takeWithin max_length 0 ws).1.length := by
          conv_lhs => rw [← List.drop_left (takeWithin max_length 0 ws).1
            (takeWithin max_length 0 ws).2]
          rw [hsplit]
        generalize hm : (takeWithin max_length 0 ws).1.length = m at h1 hdropq ⊢
        rw [h1, ← hQjoin, List.flatten_cons, List.drop_append_eq_append_drop, hdropq,
          List.nil_append]
      rcases dropPartition max_length Q' Q'.flatten
          ((takeWithin max_length 0 ws).1.length - q.length) rfl
          (fun c hc => hQbound c (by simp [hc])) with ⟨R, hR1, hR2, hR3⟩
      have hRflat : R.flatten = (takeWithin max_length 0 ws).2 := by rw [hR1, ← hrdrop]
      -- the greedy prefix is nonempty, so the remainder is shorter than ws
      have hpne : (takeWithin max_length 0 ws).1 ≠ [] := by
        rcases ws with _ | ⟨w0, ws0⟩
        · exact absurd rfl hne
        · have hfit0 : w0.length ≤ max_length := hfit w0 (by simp)
          simp [takeWithin, hfit0]
      have hrlen : (takeWithin max_length 0 ws).2.length ≤ n := by
        have hlen : (takeWithin max_length 0 ws).1.length +
            (takeWithin max_length 0 ws).2.length = ws.length := by
          rw [← List.length_append, hsplit]
        have hppos : 0 < (takeWithin max_length 0 ws).1.length :=
          List.length_pos.mpr hpne
        omega
      have hrne : (takeWithin max_length 0 ws).2 ≠ [] := by
        rw [hr]
        simp
      have hrfit : ∀ x ∈ (takeWithin max_length 0 ws).2, x.length ≤ max_length := by
        intro x hx
        refine hfit x ?_
        rw [← hsplit]
        exact List.mem_append_right _ hx
      have hrec := ih (takeWithin max_length 0 ws).2 hrlen hrfit hrne R hRflat hR2
      rw [hr] at hrestart hrec
      rw [hrestart]
      simp only [List.length_cons]
      omega

theorem chunk_words_mem (max_length : Nat) (ws : List Str) :
    ∀ c ∈ chunkTextLoop max_length ws [] 0, ∀ x ∈ c, x ∈ ws := by
  intro c hc x hx
  have hj := chunkTextLoop_join max_length ws [] 0
  have hmem : x ∈ (chunkTextLoop max_length ws [] 0).flatten :=
    List.mem_flatten.mpr ⟨c, hc, hx⟩
  rw [hj] at hmem
  simpa using hmem

theorem chunk_split (max_length : Nat) (text : Str) :
    ∀ c ∈ chunkTextLoop max_length (pySplit text) [] 0, pySplit (joinSpace c) = c := by
  intro c hc
  apply pySplit_joinSpace
  intro w hw
  exact pySplit_good text w (chunk_words_mem max_length (pySplit text) c hc w hw)

/-- C2: chunking is lossless — for every text and every `max_length`,
concatenating the word sequences of all chunks returned by
`chunk_text text max_length`, in order, reproduces exactly the word sequence
of the original text (splitting on whitespace). -/
theorem chunk_text_lossless (text : Str) (max_length : Nat) :
    ((chunk_text text max_length).map pySplit).flatten = pySplit text := by
  unfold chunk_text
  rw [List.map_map]
  have hcong : ∀ c ∈ chunkTextLoop max_length (pySplit text) [] 0,
      (pySplit ∘ joinSpace) c = id c := by
    intro c hc
    simpa using chunk_split max_length text c hc
  rw [List.map_congr_left hcong, List.map_id]
  simpa using chunkTextLoop_join max_length (pySplit text) [] 0

/-- C1 as stated is false: for the text `"aaaa"` with `max_length = 3` the
word-length sum `4` exceeds the threshold, yet `chunk_text` produces the
chunks `["", "aaaa"]`, of which `"aaaa"` has accumulated word-length sum `4`,
exceeding `max_length` — so not every produced chunk stays within the
threshold (and no partition of the words into chunks could). -/
theorem chunk_text_bound_counterexample :
    3 < wordsLen (pySplit "aaaa".data) ∧
    chunk_text "aaaa".data 3 = [[], "aaaa".data] ∧
    ¬ (∀ s ∈ chunk_text "aaaa".data 3, wordsLen (pySplit s) ≤ 3) := by
  decide

/-- C1 (amended): for every text each of whose words has length at most
`max_length` and whose word-length sum exceeds `max_length`,
`chunk_text text max_length` produces chunks whose accumulated word-length
sums (word lengths only, not separators) all stay within `max_length`, and
the number of chunks is minimal among all partitions of the word sequence
into consecutive groups each of word-length sum at most `max_length` — a
word that would overflow the current chunk starts a new chunk. -/
theorem chunk_text_minimal_chunks (text : Str) (max_length : Nat)
    (hfit : ∀ w ∈ pySplit text, w.length ≤ max_length)
    (hover : max_length < wordsLen (pySplit text)) :
    (∀ s ∈ chunk_text text max_length, wordsLen (pySplit s) ≤ max_length) ∧
    ∀ Q : List (List Str), Q.flatten = pySplit text →
      (∀ c ∈ Q, wordsLen c ≤ max_length) →
      (chunk_text text max_length).length ≤ Q.length := by
  have hne : pySplit text ≠ [] := by
    intro h
    rw [h] at hover
    simp [wordsLen] at hover
  constructor
  · intro s hs
    rcases List.mem_map.mp hs with ⟨c, hc, rfl⟩
    rw [chunk_split max_length text c hc]
    exact chunkTextLoop_bound max_length (pySplit text) [] 0 rfl hfit (Nat.zero_le _) c hc
  · intro Q hQ hQb
    rw [chunk_text, List.length_map]
    exact greedy_minimal_aux max_length (pySplit text).length (pySplit text) le_rfl hfit hne
      Q hQ hQb

/-- Witness for C1 (amended) at the text `"aa bb cc"` with `max_length = 3`. -/
theorem chunk_text_minimal_chunks_witness :
    ((∀ w ∈ pySplit "aa bb cc".data, w.length ≤ 3) ∧
      3 < wordsLen (pySplit "aa bb cc".data)) ∧
    ((∀ s ∈ chunk_text "aa bb cc".data 3, wordsLen (pySplit s) ≤ 3) ∧
      ∀ Q : List (List Str), Q.flatten = pySplit "aa bb cc".data →
        (∀ c ∈ Q, wordsLen c ≤ 3) →
        (chunk_text "aa bb cc".data 3).length ≤ Q.length) :=
  ⟨⟨by decide, by decide⟩, chunk_text_minimal_chunks "aa bb cc".data 3 (by decide) (by decide)⟩

/-! ### Lemmas about the summarize retry loop -/

theorem summarizeLoop_succ (oracle : Oracle) (prompt : Str) (k fuel : Nat) :
    summarizeLoop oracle prompt k (fuel + 1) =
      match oracle k prompt with
      | .success c => (.returned (some c), [prompt])
      | .otherError => (.raised, [prompt])
      | .rateLimit =>
        ((summarizeLoop oracle prompt (k + 1) fuel).1,
          prompt :: (summarizeLoop oracle prompt (k + 1) fuel).2) := rfl

theorem summarize_success (oracle : Oracle) (k : Nat) (text : Str) (title : Option Str)
    (c : Str) (h : oracle k (buildPrompt text title) = .success c) :
    summarize oracle k text title = (.returned (some c), [buildPrompt text title]) := by
  show summarizeLoop oracle (buildPrompt text title) k (4 + 1) = _
  rw [summarizeLoop_succ, h]

theorem summarize_raised (oracle : Oracle) (k : Nat) (text : Str) (title : Option Str)
    (h : oracle k (buildPrompt text title) = .otherError) :
    summarize oracle k text title = (.raised, [buildPrompt text title]) := by
  show summarizeLoop oracle (buildPrompt text title) k (4 + 1) = _
  rw [summarizeLoop_succ, h]

theorem summarizeLoop_rateLimit_all (oracle : Oracle) (prompt : Str)
    (h : ∀ i, oracle i prompt = .rateLimit) :
    ∀ (fuel k : Nat), summarizeLoop oracle prompt k fuel =
      (.returned none, List.replicate fuel prompt) := by
  intro fuel
  induction fuel with
  | zero => intro k; rfl
  | succ fuel ih =>
    intro k
    rw [summarizeLoop_succ, h k, ih (k + 1)]
    rfl

theorem summarize_rateLimit_all (oracle : Oracle) (k : Nat) (text : Str) (title : Option Str)
    (h : ∀ i p, oracle i p = .rateLimit) :
    summarize oracle k text title =
      (.returned none, List.replicate 5 (buildPrompt text title)) :=
  summarizeLoop_rateLimit_all oracle (buildPrompt text title) (fun i => h i _) 5 k

/-- C3: if the completion service raises a rate-limit error on every attempt,
`summarize` makes exactly 5 completion calls and returns no result; if it
rate-limits on attempt 1 and succeeds on attempt 2, `summarize` makes exactly
2 calls and returns the successful completion's content. -/
theorem summarize_retry_behavior (oracle1 oracle2 : Oracle) (f : Str → Str)
    (text : Str) (title : Option Str) :
    ((∀ i p, oracle1 i p = .rateLimit) →
      summarize oracle1 0 text title =
        (.returned none, List.replicate 5 (buildPrompt text title))) ∧
    ((∀ p, oracle2 0 p = .rateLimit) → (∀ p, oracle2 1 p = .success (f p)) →
      summarize oracle2 0 text title =
        (.returned (some (f (buildPrompt text title))),
          List.replicate 2 (buildPrompt text title))) := by
  constructor
  · intro h
    exact summarize_rateLimit_all oracle1 0 text title h
  · intro h0 h1
    show summarizeLoop oracle2 (buildPrompt text title) 0 (4 + 1) = _
    rw [summarizeLoop_succ, h0]
    show (_, _ :: (summarizeLoop oracle2 (buildPrompt text title) 1 (3 + 1)).2) = _
    rw [summarizeLoop_succ, h1]
    rfl

/-- Witness for C3 at concrete oracles: one that always rate-limits and one
that rate-limits once and then echoes the prompt back. -/
theorem summarize_retry_behavior_witness :
    summarize (fun _ _ => .rateLimit) 0 "t".data none =
      (.returned none, List.replicate 5 (buildPrompt "t".data none)) ∧
    summarize (fun i p => if i = 0 then .rateLimit else .success p) 0 "t".data none =
      (.returned (some (buildPrompt "t".data none)),
        List.replicate 2 (buildPrompt "t".data none)) := by
  constructor
  · exact (summarize_retry_behavior (fun _ _ => .rateLimit)
      (fun i p => if i = 0 then .rateLimit else .success p) (fun p => p) "t".data none).1
      (fun _ _ => rfl)
  · exact (summarize_retry_behavior (fun _ _ => .rateLimit)
      (fun i p => if i = 0 then .rateLimit else .success p) (fun p => p) "t".data none).2
      (fun _ => rfl) (fun _ => rfl)

/-! ### Lemmas about the post loop -/

theorem processPost_direct (env : Env) (oracle : Oracle) (k : Nat) (post : Post) (c : Str)
    (hrc : resolvedContent env post = some (some c))
    (hask : strAskTag ∉ post.tags)
    (hlen : ¬ 12000 < c.length) :
    processPost env oracle k post = directPath oracle k c post.title := by
  simp [processPost, hrc, withComments, hask, summarizePhase, hlen]

theorem processPost_chunked (env : Env) (oracle : Oracle) (k : Nat) (post : Post) (c : Str)
    (hrc : resolvedContent env post = some (some c))
    (hask : strAskTag ∉ post.tags)
    (hlen : 12000 < c.length) :
    processPost env oracle k post = chunkedPath oracle k c post.title := by
  simp [processPost, hrc, withComments, hask, summarizePhase, hlen]

theorem directPath_record (oracle : Oracle) (k : Nat) (content : Str) (title : Option Str)
    (t v : Option Str) (tr : List Str)
    (h : directPath oracle k content title = (.record t v, tr)) : t = title := by
  rw [directPath] at h
  split at h
  · exact absurd h (by simp)
  · injection h with h1 _
    injection h1 with h3 _
    exact h3.symm

theorem chunkedPath_record (oracle : Oracle) (k : Nat) (content : Str) (title : Option Str)
    (t v : Option Str) (tr : List Str)
    (h : chunkedPath oracle k content title = (.record t v, tr)) : t = title := by
  rw [chunkedPath] at h
  split at h
  · exact absurd h (by simp)
  · split at h
    · exact absurd h (by simp)
    · split at h
      · exact absurd h (by simp)
      · injection h with h1 _
        injection h1 with h3 _
        exact h3.symm

theorem resolvedContent_of_error (env : Env) (post : Post)
    (herr : (get_text_from_hn_post env post).1 = strERROR) :
    resolvedContent env post = none := by
  simp [resolvedContent, herr]

theorem processPost_record (env : Env) (oracle : Oracle) (k : Nat) (post : Post)
    (t v : Option Str) (tr : List Str)
    (h : processPost env oracle k post = (.record t v, tr)) :
    t = post.title ∧ (get_text_from_hn_post env post).1 ≠ strERROR := by
  by_cases herr : (get_text_from_hn_post env post).1 = strERROR
  · rw [processPost, resolvedContent_of_error env post herr] at h
    exact absurd h (by simp)
  · refine ⟨?_, herr⟩
    rcases hrc : resolvedContent env post with _ | co
    · simp [processPost, hrc] at h
    · simp only [processPost, hrc] at h
      rcases hwc : withComments env post co with e | cc
      · simp [hwc] at h
      · simp only [hwc] at h
        rw [summarizePhase] at h
        by_cases hl : 12000 < cc.length
        · rw [if_pos hl] at h
          exact chunkedPath_record oracle k cc post.title t v tr h
        · rw [if_neg hl] at h
          exact directPath_record oracle k cc post.title t v tr h

theorem dictInsert_mem (m : List (Option Str × Option Str)) (key v t w : Option Str)
    (h : (t, w) ∈ dictInsert m key v) : (t, w) ∈ m ∨ t = key := by
  rw [dictInsert] at h
  split at h
  · rcases List.mem_map.mp h with ⟨p, hp, heq⟩
    by_cases hk : p.1 = key
    · rw [if_pos hk] at heq
      right
      injection heq with h1 _
      exact h1.symm
    · rw [if_neg hk] at heq
      left
      exact heq ▸ hp
  · rcases List.mem_append.mp h with h2 | h2
    · left; exact h2
    · right
      simp at h2
      exact h2.1

theorem mtsGo_keys (env : Env) (oracle : Oracle) :
    ∀ (posts : List Post) (m : List (Option Str × Option Str)) (tr : List Str)
      (res : List (Option Str × Option Str) × List Str),
      mtsGo env oracle posts m tr = .ok res →
      ∀ t v, (t, v) ∈ res.1 → (t, v) ∈ m ∨
        ∃ p, p ∈ posts ∧ p.title = t ∧ (get_text_from_hn_post env p).1 ≠ strERROR := by
  intro posts
  induction posts with
  | nil =>
    intro m tr res hok t v hmem
    rcases res with ⟨rm, rtr⟩
    simp [mtsGo] at hok
    left
    rw [hok.1]
    exact hmem
  | cons post rest ih =>
    intro m tr res hok t v hmem
    rcases hstep : processPost env oracle tr.length post with ⟨sr, tr'⟩
    rcases sr with _ | ⟨t', v'⟩ | e
    · simp only [mtsGo, hstep] at hok
      rcases ih m (tr ++ tr') res hok t v hmem with h | ⟨p, hp, hpt, hperr⟩
      · left; exact h
      · right; exact ⟨p, by simp [hp], hpt, hperr⟩
    · simp only [mtsGo, hstep] at hok
      rcases ih (dictInsert m t' v') (tr ++ tr') res hok t v hmem with h | ⟨p, hp, hpt, hperr⟩
      · rcases dictInsert_mem m t' v' t v h with h2 | h2
        · left; exact h2
        · right
          obtain ⟨hteq, herr2⟩ := processPost_record env oracle tr.length post t' v' tr' hstep
          refine ⟨post, by simp, ?_, herr2⟩
          rw [← hteq]
          exact h2.symm
      · right; exact ⟨p, by simp [hp], hpt, hperr⟩
    · simp only [mtsGo, hstep] at hok
      exact absurd hok (by simp)

/-- C5: for every post whose extracted content is at or under the
12000-character chunk threshold, and a completion service that answers the
(first) call, the summarization of that post issues exactly one completion
call — the direct `summarize` call on the content with the title hint and no
chunking pass — and records its result. -/
theorem map_title_summary_single_call (env : Env) (oracle : Oracle) (post : Post) (c : Str)
    (f : Str → Str)
    (hrc : resolvedContent env post = some (some c))
    (hask : strAskTag ∉ post.tags)
    (hlen : c.length ≤ 12000)
    (hsuc : ∀ p, oracle 0 p = .success (f p)) :
    map_title_summary env oracle [post] =
      .ok ([(post.title, some (f (buildPrompt c post.title)))], [buildPrompt c post.title]) := by
  have h1 : processPost env oracle 0 post = directPath oracle 0 c post.title :=
    processPost_direct env oracle 0 post c hrc hask (by omega)
  have h2 := summarize_success oracle 0 c post.title (f (buildPrompt c post.title)) (hsuc _)
  simp [map_title_summary, mtsGo, h1, directPath, h2, dictInsert]

/-- Witness for C5 at the post `post0` (inline text `"hi"`) under an
always-successful completion service that echoes the prompt. -/
theorem map_title_summary_single_call_witness :
    (resolvedContent env0 post0 = some (some "hi".data) ∧
      strAskTag ∉ post0.tags ∧ ("hi".data).length ≤ 12000) ∧
    map_title_summary env0 (fun _ p => .success p) [post0] =
      .ok ([(post0.title, some (buildPrompt "hi".data post0.title))],
        [buildPrompt "hi".data post0.title]) :=
  ⟨⟨rfl, by decide, by decide⟩,
    map_title_summary_single_call env0 (fun _ p => .success p) post0 "hi".data (fun p => p)
      rfl (by decide) (by decide) (fun _ => rfl)⟩

/-- C9: a post with no external URL and empty inline text produces an
empty-string extraction result tagged as plain text, not an error. -/
theorem get_text_empty_inline (env : Env) (post : Post)
    (h1 : post.url = none) (h2 : post.story_text = some []) :
    get_text_from_hn_post env post = (strText, some []) := by
  simp [get_text_from_hn_post, h1, h2]

/-- Witness for C9 at the post `postEmptyText`. -/
theorem get_text_empty_inline_witness :
    (postEmptyText.url = none ∧ postEmptyText.story_text = some []) ∧
    get_text_from_hn_post env0 postEmptyText = (strText, some []) :=
  ⟨⟨rfl, rfl⟩, get_text_empty_inline env0 postEmptyText rfl rfl⟩

/-- C10: a post with no external URL and no inline-text field at all gets a
`None` content value from extraction, and `map_title_summary` is not total on
such a post — the `TypeError` from `len(content)` (or from appending the
comments section) aborts the whole loop instead of producing a summary or a
skip. -/
theorem get_text_missing_inline_crash (env : Env) (oracle : Oracle) (post : Post)
    (rest : List Post) (h1 : post.url = none) (h2 : post.story_text = none) :
    get_text_from_hn_post env post = (strText, none) ∧
    map_title_summary env oracle (post :: rest) = .error .noneTypeError := by
  have hget : get_text_from_hn_post env post = (strText, none) := by
    simp [get_text_from_hn_post, h1, h2]
  refine ⟨hget, ?_⟩
  have hne1 : ¬ strText = strERROR := by decide
  have hne2 : ¬ strText = strHtml := by decide
  have hrc : resolvedContent env post = some none := by
    simp [resolvedContent, hget, hne1, hne2]
  have hwc : withComments env post none = .error .noneTypeError := by
    by_cases hask : strAskTag ∈ post.tags <;> simp [withComments, hask]
  have hpp : processPost env oracle 0 post = (.crash .noneTypeError, []) := by
    simp [processPost, hrc, hwc]
  simp [map_title_summary, mtsGo, hpp]

/-- Witness for C10 at the post `postNoText`. -/
theorem get_text_missing_inline_crash_witness :
    (postNoText.url = none ∧ postNoText.story_text = none) ∧
    get_text_from_hn_post env0 postNoText = (strText, none) ∧
    map_title_summary env0 (fun _ _ => .rateLimit) [postNoText] = .error .noneTypeError :=
  ⟨⟨rfl, rfl⟩,
    get_text_missing_inline_crash env0 (fun _ _ => .rateLimit) postNoText [] rfl rfl⟩

theorem curate_foldl_append :
    ∀ (m : List (Option Str × Option Str)) (a : Str),
      m.foldl (fun script p => script ++ (pyFormat p.2 ++ "\n\n".data)) a =
        a ++ (m.map fun p => pyFormat p.2 ++ "\n\n".data).flatten := by
  intro m
  induction m with
  | nil => intro a; simp
  | cons p m ih => intro a; simp [List.foldl_cons, ih]

/-- C7: for every title→summary mapping (including the empty one), `curate`
returns the fixed preamble followed by each entry's summary in insertion
order, each summary followed by a paragraph break, with no reordering,
filtering or deduplication; in particular the result always begins with the
fixed preamble. -/
theorem curate_structure (m : List (Option Str × Option Str)) :
    curate m = preamble ++ (m.map fun p => pyFormat p.2 ++ "\n\n".data).flatten ∧
    preamble <+: curate m := by
  have h := curate_foldl_append m preamble
  exact ⟨h, ⟨_, h.symm⟩⟩

/-- C8: a post marked `"ERROR"` by the extraction step is skipped —
processing continues with the remaining posts and the run's resulting
mapping — and every key of the mapping returned by `map_title_summary` comes
from a post that was not marked `"ERROR"`. -/
theorem map_title_summary_error_posts (env : Env) (oracle : Oracle) (post : Post)
    (rest : List Post)
    (herr : (get_text_from_hn_post env post).1 = strERROR) :
    map_title_summary env oracle (post :: rest) = map_title_summary env oracle rest ∧
    ∀ (posts : List Post) (res : List (Option Str × Option Str) × List Str),
      map_title_summary env oracle posts = .ok res →
      ∀ t v, (t, v) ∈ res.1 →
        ∃ p, p ∈ posts ∧ p.title = t ∧ (get_text_from_hn_post env p).1 ≠ strERROR := by
  constructor
  · have hpp : processPost env oracle 0 post = (.skip, []) := by
      simp [processPost, resolvedContent_of_error env post herr]
    simp [map_title_summary, mtsGo, hpp]
  · intro posts res hok t v hmem
    rcases mtsGo_keys env oracle posts [] [] res hok t v hmem with h | h
    · simp at h
    · exact h

/-- Witness for C8 at the post `postUrl`, whose URL fetch fails under
`env0`. -/
theorem map_title_summary_error_posts_witness :
    (get_text_from_hn_post env0 postUrl).1 = strERROR ∧
    (map_title_summary env0 (fun _ _ => .rateLimit) [postUrl] =
        map_title_summary env0 (fun _ _ => .rateLimit) [] ∧
      ∀ (posts : List Post) (res : List (Option Str × Option Str) × List Str),
        map_title_summary env0 (fun _ _ => .rateLimit) posts = .ok res →
        ∀ t v, (t, v) ∈ res.1 →
          ∃ p, p ∈ posts ∧ p.title = t ∧
            (get_text_from_hn_post env0 p).1 ≠ strERROR) :=
  ⟨by decide,
    map_title_summary_error_posts env0 (fun _ _ => .rateLimit) postUrl [] (by decide)⟩

/-! ### Lemmas about the chunked branch -/

theorem seqOptions_map_some : ∀ l : List Str, seqOptions (l.map some) = some l := by
  intro l
  induction l with
  | nil => rfl
  | cons s l ih => simp [seqOptions, ih]

theorem chunkPrompts_length (chunks : List Str) :
    (chunkPrompts chunks).length = chunks.length := by
  simp [chunkPrompts]

theorem chunkSummaries_success (oracle : Oracle) (f : Nat → Str → Str) :
    ∀ (chunks : List Str) (k : Nat),
      (∀ i p, i < k + chunks.length → oracle i p = .success (f i p)) →
      chunkSummaries oracle k chunks =
        (.ok ((chunkOutputs f k chunks).map some), chunkPrompts chunks) := by
  intro chunks
  induction chunks with
  | nil => intro k _; simp [chunkSummaries, chunkOutputs, chunkPrompts]
  | cons ch rest ih =>
    intro k h
    have h1 : oracle k (buildPrompt (ch ++ briefSuffix) none) =
        .success (f k (buildPrompt (ch ++ briefSuffix) none)) := h k _ (by simp)
    have hsum := summarize_success oracle k (ch ++ briefSuffix) none _ h1
    have ih2 := ih (k + 1) (fun i p hi => h i p (by simp only [List.length_cons]; omega))
    simp [chunkSummaries, hsum, ih2, chunkOutputs, chunkPrompts]

theorem chunkedPath_final_success (oracle : Oracle) (f : Nat → Str → Str) (k : Nat)
    (content : Str) (title : Option Str) (c : Str)
    (h : ∀ i p, i < k + (chunk_text content 12000).length → oracle i p = .success (f i p))
    (hfin : oracle (k + (chunk_text content 12000).length)
        (buildPrompt (joinSpace (chunkOutputs f k (chunk_text content 12000)) ++ conciseSuffix)
          title) = .success c) :
    chunkedPath oracle k content title =
      (.record title (some c),
        chunkPrompts (chunk_text content 12000) ++
          [buildPrompt (joinSpace (chunkOutputs f k (chunk_text content 12000)) ++ conciseSuffix)
            title]) := by
  have hcs := chunkSummaries_success oracle f (chunk_text content 12000) k h
  have hs := summarize_success oracle (k + (chunk_text content 12000).length)
      (joinSpace (chunkOutputs f k (chunk_text content 12000)) ++ conciseSuffix) title c hfin
  rw [chunkedPath, hcs]
  simp [seqOptions_map_some, chunkPrompts_length, hs]

theorem chunkedPath_final_raised (oracle : Oracle) (f : Nat → Str → Str) (k : Nat)
    (content : Str) (title : Option Str)
    (h : ∀ i p, i < k + (chunk_text content 12000).length → oracle i p = .success (f i p))
    (hfin : oracle (k + (chunk_text content 12000).length)
        (buildPrompt (joinSpace (chunkOutputs f k (chunk_text content 12000)) ++ conciseSuffix)
          title) = .otherError) :
    chunkedPath oracle k content title =
      (.skip,
        chunkPrompts (chunk_text content 12000) ++
          [buildPrompt (joinSpace (chunkOutputs f k (chunk_text content 12000)) ++ conciseSuffix)
            title]) := by
  have hcs := chunkSummaries_success oracle f (chunk_text content 12000) k h
  have hs := summarize_raised oracle (k + (chunk_text content 12000).length)
      (joinSpace (chunkOutputs f k (chunk_text content 12000)) ++ conciseSuffix) title hfin
  rw [chunkedPath, hcs]
  simp [seqOptions_map_some, chunkPrompts_length, hs]

theorem replicate_word_good (n : Nat) (ch : Char) (hch : ch.isWhitespace = false)
    (hn : n ≠ 0) :
    List.replicate n ch ≠ [] ∧ ∀ c ∈ List.replicate n ch, c.isWhitespace = false := by
  constructor
  · intro h
    apply hn
    simpa using congrArg List.length h
  · intro c hc
    rw [List.eq_of_mem_replicate hc]
    exact hch

theorem pySplit_text25k : pySplit text25k = [wordA, wordB, wordC] := by
  apply pySplit_joinSpace
  intro w hw
  simp only [List.mem_cons, List.not_mem_nil, or_false] at hw
  rcases hw with rfl | rfl | rfl
  · exact replicate_word_good 8332 'a' (by decide) (by decide)
  · exact replicate_word_good 8333 'b' (by decide) (by decide)
  · exact replicate_word_good 8333 'c' (by decide) (by decide)

theorem wordA_length : wordA.length = 8332 := List.length_replicate 8332 'a'

theorem wordB_length : wordB.length = 8333 := List.length_replicate 8333 'b'

theorem wordC_length : wordC.length = 8333 := List.length_replicate 8333 'c'

theorem text25k_length : text25k.length = 25000 := by
  have h : text25k = wordA ++ ' ' :: (wordB ++ ' ' :: wordC) := rfl
  rw [h, List.length_append, List.length_cons, List.length_append, List.length_cons,
    wordA_length, wordB_length, wordC_length]

theorem chunk_text_text25k : chunk_text text25k 12000 = [wordA, wordB, wordC] := by
  rw [chunk_text, pySplit_text25k]
  simp [chunkTextLoop, wordA_length, wordB_length, wordC_length, joinSpace]

theorem oneWord25k_length : oneWord25k.length = 25000 :=
  List.length_replicate 25000 'a' 

theorem chunk_text_oneWord25k : chunk_text oneWord25k 12000 = [[], oneWord25k] := by
  have hsplit : pySplit oneWord25k = [oneWord25k] := by
    refine pySplit_word oneWord25k ?_ ?_
    · exact (replicate_word_good 25000 'a' (by decide) (by decide)).1
    · exact (replicate_word_good 25000 'a' (by decide) (by decide)).2
  rw [chunk_text, hsplit]
  have hlen : oneWord25k.length = 25000 := oneWord25k_length
  simp [chunkTextLoop, hlen, joinSpace]

/-- C6 fails as stated: the 25000-character input consisting of a single
25000-character word is split into 2 chunks (one of them empty), not 3 —
the accumulation rule counts word-length sums, so the chunk count of a
25000-character text depends on its word structure. -/
theorem chunk_text_25000_counterexample :
    oneWord25k.length = 25000 ∧ (chunk_text oneWord25k 12000).length = 2 := by
  refine ⟨oneWord25k_length, ?_⟩
  rw [chunk_text_oneWord25k]
  rfl

/-- C6 (amended): some 25000-character input texts with threshold 12000 are
split into exactly 3 chunks under the accumulation rule (for instance one of
three large words); and for every post taking the chunked branch under a
completion service that answers every call, each chunk is summarized
independently, the chunk summaries are joined with single spaces, one final
summarization call is made with the joined text (plus the concise-summary
instruction) and the original title as a hint, and the post's final summary
is exactly that final call's result. -/
theorem chunked_pipeline_amended :
    (text25k.length = 25000 ∧ (chunk_text text25k 12000).length = 3) ∧
    ∀ (env : Env) (oracle : Oracle) (post : Post) (c : Str) (f : Nat → Str → Str),
      resolvedContent env post = some (some c) →
      strAskTag ∉ post.tags →
      12000 < c.length →
      (∀ i p, oracle i p = .success (f i p)) →
      map_title_summary env oracle [post] =
        .ok ([(post.title, some (f (chunk_text c 12000).length
              (buildPrompt (joinSpace (chunkOutputs f 0 (chunk_text c 12000)) ++ conciseSuffix)
                post.title)))],
          chunkPrompts (chunk_text c 12000) ++
            [buildPrompt (joinSpace (chunkOutputs f 0 (chunk_text c 12000)) ++ conciseSuffix)
              post.title]) := by
  constructor
  · refine ⟨text25k_length, ?_⟩
    rw [chunk_text_text25k]
    rfl
  · intro env oracle post c f hrc hask hlen hsuc
    have h1 : processPost env oracle 0 post = chunkedPath oracle 0 c post.title :=
      processPost_chunked env oracle 0 post c hrc hask hlen
    have h2 := chunkedPath_final_success oracle f 0 c post.title
        (f (chunk_text c 12000).length
          (buildPrompt (joinSpace (chunkOutputs f 0 (chunk_text c 12000)) ++ conciseSuffix)
            post.title))
        (fun i p _ => hsuc i p) (by simpa using hsuc _ _)
    simp [map_title_summary, mtsGo, h1, h2, dictInsert]

/-- Witness for C6 (amended), part 2 instantiated at the post `postBig`
(inline text `text25k`) under a completion service that echoes prompts. -/
theorem chunked_pipeline_amended_witness :
    (resolvedContent env0 postBig = some (some text25k) ∧
      strAskTag ∉ postBig.tags ∧ 12000 < text25k.length) ∧
    map_title_summary env0 (fun _ p => .success p) [postBig] =
      .ok ([(postBig.title, some ((fun (_ : Nat) (p : Str) => p) (chunk_text text25k 12000).length
            (buildPrompt
              (joinSpace (chunkOutputs (fun _ p => p) 0 (chunk_text text25k 12000)) ++
                conciseSuffix) postBig.title)))],
        chunkPrompts (chunk_text text25k 12000) ++
          [buildPrompt
            (joinSpace (chunkOutputs (fun _ p => p) 0 (chunk_text text25k 12000)) ++
              conciseSuffix) postBig.title]) :=
  ⟨⟨rfl, by decide, by simp [text25k_length]⟩,
    (chunked_pipeline_amended.2 env0 (fun _ p => .success p) postBig text25k (fun _ p => p)
      rfl (by decide) (by simp [text25k_length]) (fun _ _ => rfl))⟩

/-- C4 fails as stated: for the post `post0` under a completion service that
rate-limits every call, the retries are exhausted, `summarize` returns `None`
without raising, and `map_title_summary` records the entry
`"T" → None` instead of dropping the post. -/
theorem map_title_summary_none_entry_counterexample :
    map_title_summary env0 (fun _ _ => .rateLimit) [post0] =
      .ok ([(some "T".data, none)],
        List.replicate 5 (buildPrompt "hi".data (some "T".data))) := by
  have h1 : processPost env0 (fun _ _ => .rateLimit) 0 post0 =
      directPath (fun _ _ => .rateLimit) 0 "hi".data post0.title :=
    processPost_direct env0 (fun _ _ => .rateLimit) 0 post0 "hi".data rfl (by decide) (by decide)
  have h2 := summarize_rateLimit_all (fun _ _ => .rateLimit) 0 "hi".data post0.title
      (fun _ _ => rfl)
  simp only [map_title_summary, mtsGo, List.length_nil, h1, directPath, h2, List.nil_append]
  simp [dictInsert, post0]

/-- C4 (amended): when the final summarization pass of the chunked branch
raises an exception, no entry is recorded for the post's title (the post is
dropped); but when the rate-limit retries are exhausted — `summarize`
returning no result without raising — an entry mapping the title to a null
summary is recorded rather than the post being dropped. -/
theorem map_title_summary_failure_paths :
    (∀ (env : Env) (oracle : Oracle) (post : Post) (c : Str) (f : Nat → Str → Str),
      resolvedContent env post = some (some c) →
      strAskTag ∉ post.tags →
      12000 < c.length →
      (∀ i p, i < (chunk_text c 12000).length → oracle i p = .success (f i p)) →
      (∀ p, oracle (chunk_text c 12000).length p = .otherError) →
      map_title_summary env oracle [post] =
        .ok ([],
          chunkPrompts (chunk_text c 12000) ++
            [buildPrompt (joinSpace (chunkOutputs f 0 (chunk_text c 12000)) ++ conciseSuffix)
              post.title])) ∧
    (∀ (env : Env) (oracle : Oracle) (post : Post) (c : Str),
      resolvedContent env post = some (some c) →
      strAskTag ∉ post.tags →
      c.length ≤ 12000 →
      (∀ i p, oracle i p = .rateLimit) →
      map_title_summary env oracle [post] =
        .ok ([(post.title, none)], List.replicate 5 (buildPrompt c post.title))) := by
  constructor
  · intro env oracle post c f hrc hask hlen hsucc hfail
    have h1 : processPost env oracle 0 post = chunkedPath oracle 0 c post.title :=
      processPost_chunked env oracle 0 post c hrc hask hlen
    have h2 := chunkedPath_final_raised oracle f 0 c post.title
        (fun i p hi => hsucc i p (by omega)) (by simpa using hfail _)
    simp [map_title_summary, mtsGo, h1, h2]
  · intro env oracle post c hrc hask hlen hrl
    have h1 : processPost env oracle 0 post = directPath oracle 0 c post.title :=
      processPost_direct env oracle 0 post c hrc hask (by omega)
    have h2 := summarize_rateLimit_all oracle 0 c post.title hrl
    simp [map_title_summary, mtsGo, h1, directPath, h2, dictInsert]

/-- Witness for C4 (amended): the drop-on-exception part at `postBig` with a
service that succeeds on the chunk calls and raises on the final call, and
the null-entry part at `post0` with an always-rate-limiting service. -/
theorem map_title_summary_failure_paths_witness :
    map_title_summary env0
        (fun i p => if i < (chunk_text text25k 12000).length then .success p else .otherError)
        [postBig] =
      .ok ([],
        chunkPrompts (chunk_text text25k 12000) ++
          [buildPrompt
            (joinSpace (chunkOutputs (fun _ p => p) 0 (chunk_text text25k 12000)) ++
              conciseSuffix) postBig.title]) ∧
    map_title_summary env0 (fun _ _ => .rateLimit) [post0] =
      .ok ([(post0.title, none)], List.replicate 5 (buildPrompt "hi".data post0.title)) :=
  ⟨map_title_summary_failure_paths.1 env0
      (fun i p => if i < (chunk_text text25k 12000).length then .success p else .otherError)
      postBig text25k (fun _ p => p) rfl (by decide) (by simp [text25k_length])
      (fun i p hi => by simp [hi]) (fun p => by simp),
    map_title_summary_failure_paths.2 env0 (fun _ _ => .rateLimit) post0 "hi".data rfl
      (by decide) (by decide) (fun _ _ => rfl)⟩
